import Mathlib

/-!
Verification of the quote-refresh reconciliation and time-series
normalization logic of the stock-monitor repository.

The definitions below are a shallow embedding of the TypeScript/JavaScript
source:
  - the quote reconciliation loop of fetchStockData (App.vue and its
    unnamed sibling component),
  - the per-quote numeric derivation of the POST /api/stock-data handlers
    of the backend server,
  - the date conversion, sorting, and chart-series construction of
    showChartModal / renderChart,
  - the monthly-completeness check of showChartModal,
  - the second (persisted-list) variant of the POST /api/stock-data handler.

JavaScript numbers are modelled as `Option Rat` (with `none` playing the
role of NaN); machine strings are Lean `String`s, manipulated through
structurally recursive helpers over `List Char` so that every definition
evaluates by kernel reduction.
-/

namespace StockMonitor

/-- Characters treated as whitespace by the JavaScript number parsers. -/
def isJsWhitespace (c : Char) : Bool :=
  c = ' ' ∨ c = '\t' ∨ c = '\n' ∨ c = '\r'

/-- Digit test, matching the characters accepted by parseInt/parseFloat. -/
def isDigitChar (c : Char) : Bool :=
  '0'.toNat ≤ c.toNat ∧ c.toNat ≤ '9'.toNat

/-- Numeric value of a list of decimal digit characters, most significant
first (the usual positional reading used by JS number parsing). -/
def natOfDigits (l : List Char) : ℕ :=
  l.foldl (fun n c => 10 * n + (c.toNat - '0'.toNat)) 0

/-- Longest prefix of decimal digits together with the remaining input. -/
def leadingDigits : List Char → List Char × List Char
  | [] => ([], [])
  | c :: t =>
    if isDigitChar c then
      let p := leadingDigits t
      (c :: p.1, p.2)
    else ([], c :: t)

/-- Unsigned part of JS parseFloat: digits, an optional decimal point and
further digits. Returns none when no digit is present (NaN). Exponent
notation and Infinity are not modelled (no caller produces them). -/
def parseUnsigned (l : List Char) : Option ℚ :=
  let ip := leadingDigits l
  match ip.2 with
  | '.' :: t2 =>
    let fp := leadingDigits t2
    if ip.1 = [] ∧ fp.1 = [] then none
    else some ((natOfDigits ip.1 : ℚ) + (natOfDigits fp.1 : ℚ) / (10 : ℚ) ^ fp.1.length)
  | _ => if ip.1 = [] then none else some (natOfDigits ip.1 : ℚ)

/-- Shallow embedding of JavaScript parseFloat on character lists: leading
whitespace is skipped, an optional sign is consumed, and the longest valid
decimal prefix is parsed; none models NaN. -/
def parseFloatChars (l : List Char) : Option ℚ :=
  match l.dropWhile isJsWhitespace with
  | '+' :: t => parseUnsigned t
  | '-' :: t => (parseUnsigned t).map Neg.neg
  | t => parseUnsigned t

/-- JavaScript parseFloat on strings (none models NaN). -/
def parseFloat (s : String) : Option ℚ :=
  parseFloatChars s.data

/-- Shallow embedding of JavaScript parseInt(s, 10): leading whitespace,
optional sign, then the longest prefix of decimal digits; none models NaN. -/
def parseIntJS (s : String) : Option ℤ :=
  match s.data.dropWhile isJsWhitespace with
  | '+' :: t =>
    let p := leadingDigits t
    if p.1 = [] then none else some (natOfDigits p.1 : ℤ)
  | '-' :: t =>
    let p := leadingDigits t
    if p.1 = [] then none else some (-(natOfDigits p.1 : ℤ))
  | t =>
    let p := leadingDigits t
    if p.1 = [] then none else some (natOfDigits p.1 : ℤ)

/-- Two-digit zero padding of a natural number below 100, as produced by
toFixed for the fractional part. -/
def pad2digits (n : ℕ) : String :=
  if n < 10 then "0" ++ Nat.repr n else Nat.repr n

/-- Shallow embedding of JavaScript Number.prototype.toFixed(2): round the
value to the nearest multiple of 1/100 (ties toward the larger integer, as
the ECMAScript specification prescribes) and print it with exactly two
fractional digits. The negative-zero output of JS (for values in
(-0.005, 0)) is not modelled; no claim depends on it. -/
def toFixed2 (q : ℚ) : String :=
  let m : ℤ := round (q * 100)
  let a : ℕ := m.natAbs
  (if m < 0 then "-" else "") ++ Nat.repr (a / 100) ++ "." ++ pad2digits (a % 100)

/-- Value-level model of parseFloat(x.toFixed(2)): rounding a number to two
decimal places (NaN maps to NaN through the string round trip). -/
def round2 (q : ℚ) : ℚ :=
  (round (q * 100) : ℚ) / 100

/-- Splits a character list on the slash character, the embedding of the
JavaScript split call used on date strings. -/
def splitSlashChars : List Char → List (List Char)
  | [] => [[]]
  | c :: t =>
    if c = '/' then [] :: splitSlashChars t
    else
      match splitSlashChars t with
      | [] => [[c]]
      | p :: r => (c :: p) :: r

/-- JavaScript dateStr.split with the slash separator. -/
def splitSlash (s : String) : List String :=
  (splitSlashChars s.data).map String.mk

/-- JavaScript padStart(2, zero): prepend zeros until length two. -/
def padStart2 (s : String) : String :=
  if s.data.length = 0 then "00"
  else if s.data.length = 1 then "0" ++ s
  else s

/-- Embedding of convertMinguoToGregorian (App.vue, showChartModal and the
yearly-data watcher): split the date string on slashes; when there are
exactly three parts, add 1911 to the parseInt of the first part
unconditionally, zero-pad month and day to two digits and rebuild the
string; otherwise return the input unchanged. When parseInt yields NaN the
JS template interpolation prints the string NaN, modelled literally. -/
def convertMinguoToGregorian (dateStr : String) : String :=
  match splitSlash dateStr with
  | [y, m, d] =>
    (match parseIntJS y with
     | some n => Int.repr (n + 1911)
     | none => "NaN") ++ "/" ++ padStart2 m ++ "/" ++ padStart2 d
  | _ => dateStr

/-- Lexicographic comparison of character lists by code point, the order
JavaScript uses when comparing the date strings produced above (they are
ASCII, where UTF-16 unit order and code-point order agree). -/
def lexLe : List Char → List Char → Bool
  | [], _ => true
  | _ :: _, [] => false
  | a :: as, b :: bs =>
    if a.toNat < b.toNat then true
    else if b.toNat < a.toNat then false
    else lexLe as bs

/-- String comparison as used by the sort comparators of showChartModal. -/
def strLe (a b : String) : Prop :=
  lexLe a.data b.data = true

instance : DecidableRel strLe := fun a b =>
  inferInstanceAs (Decidable (lexLe a.data b.data = true))

theorem lexLe_total : ∀ a b : List Char, lexLe a b = true ∨ lexLe b a = true
  | [], _ => Or.inl rfl
  | _ :: _, [] => Or.inr rfl
  | a :: as, b :: bs => by
    simp only [lexLe]
    rcases Nat.lt_trichotomy a.toNat b.toNat with h | h | h
    · left
      simp [h]
    · have h1 : ¬ a.toNat < b.toNat := by omega
      have h2 : ¬ b.toNat < a.toNat := by omega
      simpa [h1, h2] using lexLe_total as bs
    · right
      simp [h]

theorem lexLe_trans :
    ∀ a b c : List Char, lexLe a b = true → lexLe b c = true → lexLe a c = true
  | [], _, _ => by intro _ _; rfl
  | _ :: _, [], _ => by intro h _; simp [lexLe] at h
  | _ :: _, _ :: _, [] => by intro _ h; simp [lexLe] at h
  | a :: as, b :: bs, c :: cs => by
    intro h1 h2
    simp only [lexLe] at h1 h2 ⊢
    have hab : a.toNat < b.toNat ∨ (¬ b.toNat < a.toNat ∧ ¬ a.toNat < b.toNat) := by
      by_cases h : a.toNat < b.toNat
      · exact Or.inl h
      · refine Or.inr ⟨fun hc => ?_, h⟩
        simp [h, hc] at h1
    have hbc : b.toNat < c.toNat ∨ (¬ c.toNat < b.toNat ∧ ¬ b.toNat < c.toNat) := by
      by_cases h : b.toNat < c.toNat
      · exact Or.inl h
      · refine Or.inr ⟨fun hc => ?_, h⟩
        simp [h, hc] at h2
    rcases hab with hab | ⟨hba, hab⟩ <;> rcases hbc with hbc | ⟨hcb, hbc⟩
    · have hac : a.toNat < c.toNat := Nat.lt_trans hab hbc
      simp [hac]
    · have hac : a.toNat < c.toNat := by omega
      simp [hac]
    · have hac : a.toNat < c.toNat := by omega
      simp [hac]
    · have h3 : ¬ a.toNat < c.toNat := by omega
      have h4 : ¬ c.toNat < a.toNat := by omega
      simp only [h3, h4, if_false, ite_self, if_neg, not_false_iff]
      simp only [hab, hba, if_neg, not_false_iff] at h1
      simp only [hbc, hcb, if_neg, not_false_iff] at h2
      exact lexLe_trans as bs cs h1 h2

/-- First-occurrence character test, the embedding of the JS includes call
restricted to a single-character needle. -/
def containsChar (c : Char) : List Char → Bool
  | [] => false
  | a :: t => a == c || containsChar c t

/-- Embedding of JS replace with a single-character string pattern, which
removes only the first occurrence. -/
def removeFirstChar (c : Char) : List Char → List Char
  | [] => []
  | a :: t => if a == c then t else a :: removeFirstChar c t

/-- Embedding of JS replace with a global single-character regular
expression, removing every occurrence. -/
def removeAllChar (c : Char) : List Char → List Char
  | [] => []
  | a :: t => if a == c then removeAllChar c t else a :: removeAllChar c t

/-- The characters after the first occurrence of c, or the whole list when
c is absent: the embedding of substring(indexOf(c) + 1), where indexOf
returning minus one makes substring(0) return the whole string. -/
def dropThroughChar (c : Char) : List Char → List Char
  | [] => []
  | a :: t => if a == c then t else dropThroughChar c t

/-- JS date.substring(date.indexOf(slash) + 1): the date with everything
up to and including the first slash removed, the whole string when it has
no slash. -/
def afterFirstSlash (s : String) : String :=
  if containsChar '/' s.data then String.mk (dropThroughChar '/' s.data) else s

/-- Embedding of the two-line signed-change parser of renderChart:
parseFloat of the string with its first plus and first minus removed,
negated when the string contains a minus anywhere. -/
def parsePriceChange (s : String) : Option ℚ :=
  let mag := parseFloatChars (removeFirstChar '-' (removeFirstChar '+' s.data))
  if containsChar '-' s.data then mag.map Neg.neg else mag

/-- One vendor day record as consumed by renderChart: the three columns it
extracts from the raw row (date, closing price, signed price change). -/
structure DayRow where
  date : String
  closing : String
  change : String
deriving DecidableEq

/-- One emitted chart entry: x-axis label, rounded percentage change and
closing price (none models NaN). -/
structure ChartPoint where
  label : String
  pct : Option ℚ
  close : Option ℚ
deriving DecidableEq

/-- JS subtraction with NaN propagation. -/
def jsSub : Option ℚ → Option ℚ → Option ℚ
  | some a, some b => some (a - b)
  | _, _ => none

/-- The percentage-change computation of renderChart: zero when the
derived yesterday close is exactly zero, otherwise actual divided by
yesterday close times 100; NaN yesterday close compares unequal to zero in
JS, so the NaN propagates through the division. -/
def jsPercentage (actual yClose : Option ℚ) : Option ℚ :=
  match yClose with
  | some v =>
    if v = 0 then some 0
    else
      match actual with
      | some a => some (a / v * 100)
      | none => none
  | none => none

/-- One data point of the monthly (daily-granularity) branch of
renderChart: label is the raw date after its first slash, the percentage
is rounded through toFixed(2) and parsed back, and the closing price is
parseFloat of the raw closing string (no comma stripping in this branch). -/
def monthlyPoint (r : DayRow) : ChartPoint :=
  let closingPrice := parseFloat r.closing
  let actual := parsePriceChange r.change
  let yClose := jsSub closingPrice actual
  let pct := jsPercentage actual yClose
  { label := afterFirstSlash r.date
    pct := pct.map round2
    close := closingPrice }

/-- Comparable date key used by the sort comparators of showChartModal. -/
def dateKey (r : DayRow) : String :=
  convertMinguoToGregorian r.date

/-- Row comparison of the showChartModal sort comparator. -/
def rowLe (a b : DayRow) : Prop :=
  strLe (dateKey a) (dateKey b)

instance : DecidableRel rowLe := fun a b =>
  inferInstanceAs (Decidable (strLe (dateKey a) (dateKey b)))

instance : IsTotal DayRow rowLe :=
  ⟨fun a b => lexLe_total (dateKey a).data (dateKey b).data⟩

instance : IsTrans DayRow rowLe :=
  ⟨fun a b c => lexLe_trans (dateKey a).data (dateKey b).data (dateKey c).data⟩

/-- The ascending stable sort applied to fetched day rows by
showChartModal before renderChart consumes them. -/
def sortRows (rows : List DayRow) : List DayRow :=
  List.insertionSort rowLe rows

/-- The monthly chart construction: sort ascending by normalized date,
then map each row to its daily chart point. -/
def buildMonthly (rows : List DayRow) : List ChartPoint :=
  (sortRows rows).map monthlyPoint

/-- Month grouping key of the yearly branch of renderChart: for a
three-part date, the year (with 1911 added only when the parsed year is
below 1911) joined with the zero-padded month; rows whose date is not
three slash-separated parts are skipped (none). A NaN year prints as the
string NaN and compares false against 1911, as in JS. -/
def monthKeyOf (r : DayRow) : Option String :=
  match splitSlash r.date with
  | [y, m, _] =>
    some ((match parseIntJS y with
      | some n => Int.repr (if n < 1911 then n + 1911 else n)
      | none => "NaN") ++ "/" ++ padStart2 m)
  | _ => none

/-- Assignment into the JS grouping object: replace an existing binding in
place, or append a new one (later rows of the same month overwrite the
earlier representative). -/
def upsert (l : List (String × DayRow)) (k : String) (r : DayRow) : List (String × DayRow) :=
  match l with
  | [] => [(k, r)]
  | p :: t => if p.1 = k then (k, r) :: t else p :: upsert t k r

/-- One step of the forEach loop filling monthlyLastDayData. -/
def groupStep (acc : List (String × DayRow)) (r : DayRow) : List (String × DayRow) :=
  match monthKeyOf r with
  | some k => upsert acc k r
  | none => acc

/-- The monthlyLastDayData object of the yearly branch, as an association
list keyed by month in first-insertion order. -/
def monthGroups (rows : List DayRow) : List (String × DayRow) :=
  rows.foldl groupStep []

/-- One data point of the yearly branch of renderChart: the label is the
month key, the closing string has its commas stripped before parseFloat,
and both the percentage and the closing price go through toFixed(2). -/
def yearlyPoint (k : String) (r : DayRow) : ChartPoint :=
  let closingPrice := parseFloat (String.mk (removeAllChar ',' r.closing.data))
  let actual := parsePriceChange r.change
  let yClose := jsSub closingPrice actual
  let pct := jsPercentage actual yClose
  { label := k
    pct := pct.map round2
    close := closingPrice.map round2 }

/-- Month-key comparison for the Object.keys(...).sort() call. -/
def keyLe (a b : String × DayRow) : Prop :=
  strLe a.1 b.1

instance : DecidableRel keyLe := fun a b =>
  inferInstanceAs (Decidable (strLe a.1 b.1))

instance : IsTotal (String × DayRow) keyLe :=
  ⟨fun a b => lexLe_total a.1.data b.1.data⟩

instance : IsTrans (String × DayRow) keyLe :=
  ⟨fun a b c => lexLe_trans a.1.data b.1.data c.1.data⟩

/-- The yearly chart construction of renderChart: group the (already
sorted) rows by month key with the last row of a month winning, sort the
month keys ascending, and emit one entry per month. -/
def buildYearly (rows : List DayRow) : List ChartPoint :=
  (List.insertionSort keyLe (monthGroups rows)).map fun p => yearlyPoint p.1 p.2

/-- The last row of the batch carrying the given month key, in list
order. -/
def lastRowOfMonth (k : String) (rows : List DayRow) : Option DayRow :=
  rows.foldl (fun acc r => if monthKeyOf r = some k then some r else acc) none

/-- One fetched quote as delivered by the backend stockData map to the
frontend (all displayed fields are strings, with the sentinel value N/A
standing for a missing reading). -/
structure StockItem where
  Code : String
  Name : String
  t : Option String
  v : Option String
  InstantPrice : String
  PriceChange : String
  ChangePercentage : String
  YesterdayClose : String
deriving DecidableEq

/-- One entry of the frontend stockData cache (the StockData interface of
App.vue: every displayed field beyond code and name is optional). -/
structure StockData where
  Code : String
  Name : String
  t : Option String
  v : Option String
  z : Option String
  InstantPrice : Option String
  PriceChange : Option String
  ChangePercentage : Option String
  YesterdayClose : Option String
deriving DecidableEq

/-- The conditional update of fetchStockData for one field: keep the
previously displayed value exactly when inside the trading window, the
fresh value is the N/A sentinel, and the previous cache holds a defined
value for the field (the JS undefined check). -/
def carryField (w : Bool) (fv : String) (pv : Option String) : String :=
  match pv with
  | some p => if w && (fv == "N/A") then p else fv
  | none => fv

/-- The record built by the reconciliation loop of fetchStockData for one
tracked code present in the fetch result: name, code, time, volume and
yesterday close are taken from the fresh item unconditionally, while the
price, price change and change percentage go through carryField against
the previous cache entry. -/
def reconcileItem (w : Bool) (item : StockItem) (cur : Option StockData) : StockData :=
  { Code := item.Code
    Name := item.Name
    t := item.t
    v := item.v
    z := some (carryField w item.InstantPrice (cur.bind fun s => s.z))
    InstantPrice := some (carryField w item.InstantPrice (cur.bind fun s => s.InstantPrice))
    PriceChange := some (carryField w item.PriceChange (cur.bind fun s => s.PriceChange))
    ChangePercentage :=
      some (carryField w item.ChangePercentage (cur.bind fun s => s.ChangePercentage))
    YesterdayClose := some item.YesterdayClose }

/-- The reconciliation loop of fetchStockData: iterate over the fetched
map in insertion order, keep only codes still in the tracked list, and
rebuild each entry with reconcileItem against the previous cache. Tracked
codes absent from the fetch produce no entry at all. -/
def reconcile (w : Bool) (prev : List (String × StockData))
    (fetched : List (String × StockItem)) (tracked : List String) :
    List (String × StockData) :=
  fetched.filterMap fun p =>
    if tracked.contains p.1 then some (p.1, reconcileItem w p.2 (prev.lookup p.1))
    else none

/-- Carry-forward rule in the words of the specification: keep the
previous value exactly when in the trading window, the fresh value is N/A,
and the previous value exists and is itself not N/A. Stated separately
from carryField so the code can be compared against it. -/
def carryFieldSpec (w : Bool) (fv : String) (pv : Option String) : String :=
  match pv with
  | some p => if w = true ∧ fv = "N/A" ∧ p ≠ "N/A" then p else fv
  | none => fv

/-- One raw quote from the upstream exchange msgArray (fields c, n, z, y,
t, v as used by the backend handlers). -/
structure MsgInfo where
  c : String
  n : String
  z : String
  y : String
  t : String
  v : String
deriving DecidableEq

/-- One processed quote of the backend stockData response map. -/
structure QuoteRecord where
  Code : String
  Name : String
  InstantPrice : String
  PriceChange : String
  ChangePercentage : String
  YesterdayClose : String
  t : String
  v : String
deriving DecidableEq

/-- The per-quote numeric derivation shared by both POST /api/stock-data
handlers of the server: parse the z and y fields, derive the price change
and percentage when both parse, keep the N/A sentinels otherwise, and
format yesterday close through toFixed(2) when the y string is truthy
(non-empty). The first handler variant adds three extra fields (limits and
market) that no claim mentions and that are omitted here. -/
def processQuote (info : MsgInfo) : QuoteRecord :=
  let latestPrice := parseFloat info.z
  let yesterdayClose := parseFloat info.y
  let priceChange :=
    match latestPrice, yesterdayClose with
    | some lp, some yc => toFixed2 (lp - yc)
    | _, _ => "N/A"
  let changePercentage :=
    match latestPrice, yesterdayClose with
    | some lp, some yc =>
      if yc ≠ 0 then toFixed2 ((lp - yc) / yc * 100) ++ "%" else "N/A"
    | _, _ => "N/A"
  { Code := info.c
    Name := if info.n = "" then "N/A" else info.n
    InstantPrice :=
      match latestPrice with
      | some lp => toFixed2 lp
      | none => "N/A"
    PriceChange := priceChange
    ChangePercentage := changePercentage
    YesterdayClose :=
      if info.y = "" then "N/A"
      else
        match yesterdayClose with
        | some yc => toFixed2 yc
        | none => "NaN"
    t := info.t
    v := info.v }

/-- Outcome of the upstream axios call as seen by the second handler:
a valid body with msgArray, a body without a msgArray array, or a thrown
fetch error (apiData stays null). -/
inductive Upstream where
  | ok (sysTime : Option String) (msgArray : List MsgInfo)
  | badFormat (sysTime : Option String)
  | fetchFail
deriving DecidableEq

/-- One value of the response stockData map: a processed quote or an error
marker object. -/
inductive ResEntry where
  | quote (q : QuoteRecord)
  | err (msg : String)
deriving DecidableEq

/-- The HTTP response assembled by the second handler. -/
structure Response where
  status : ℕ
  sysTime : Option String
  entries : List (String × ResEntry)
deriving DecidableEq

/-- A full run of the second handler: the codes it queried upstream and
the response it sent. -/
structure HandlerRun where
  queried : List String
  response : Response
deriving DecidableEq

/-- Boolean prefix test on character lists (JS startsWith). -/
def startsWithChars : List Char → List Char → Bool
  | [], _ => true
  | _ :: _, [] => false
  | a :: p, b :: l => a == b && startsWithChars p l

/-- Boolean suffix test on character lists (JS endsWith). -/
def endsWithChars (p l : List Char) : Bool :=
  startsWithChars p.reverse l.reverse

/-- The ex_ch formatting of the second handler: leave a code alone when it
already starts with tse underscore and ends with dot tw, otherwise wrap
it. -/
def tseFormat (code : String) : String :=
  if startsWithChars ("tse_").data code.data && endsWithChars (".tw").data code.data then code
  else "tse_" ++ code ++ ".tw"

/-- JS join with the vertical-bar separator. -/
def joinBar : List String → String
  | [] => ""
  | [s] => s
  | s :: t => s ++ "|" ++ joinBar t

/-- The upstream query URL built by the second handler. -/
def apiUrlOf (codes : List String) : String :=
  "https://mis.twse.com.tw/stock/api/getStockInfo.jsp?ex_ch=" ++ joinBar (codes.map tseFormat)

/-- Embedding of the second (persisted-list) POST /api/stock-data handler:
the queried codes are the keys of the server's stored stockData object;
the request body is received but never read. With an empty store it
answers immediately with an empty map; with a valid upstream body it maps
each msgArray element through processQuote; with a malformed body it keeps
the stored entry (or an error marker) per tracked code; after a thrown
fetch it answers 500 with the stored entry or an error marker per code.
The file write-back is an external side effect with no influence on the
response and is not modelled. -/
def handleStockData (stored : List (String × ResEntry)) (_body : List String)
    (u : Upstream) : HandlerRun :=
  let stockCodes := stored.map Prod.fst
  if stockCodes.length = 0 then
    ⟨stockCodes, ⟨200, none, []⟩⟩
  else
    match u with
    | Upstream.ok sysTime msgArray =>
      ⟨stockCodes,
        ⟨200, sysTime, msgArray.map fun info => (info.c, ResEntry.quote (processQuote info))⟩⟩
    | Upstream.badFormat sysTime =>
      ⟨stockCodes,
        ⟨200, sysTime,
          stockCodes.map fun code =>
            (code,
              match stored.lookup code with
              | some e => e
              | none => ResEntry.err "API data format unexpected or empty")⟩⟩
    | Upstream.fetchFail =>
      ⟨stockCodes,
        ⟨500, none,
          stockCodes.map fun code =>
            (code,
              match stored.lookup code with
              | some e => e
              | none => ResEntry.err "Failed to fetch data from API")⟩⟩

/-- Gregorian leap-year rule, as implemented by the JS Date object. -/
def isLeapYear (y : ℕ) : Bool :=
  y % 4 == 0 && (!(y % 100 == 0) || y % 400 == 0)

/-- Number of days of a month (month given 1 to 12), the value the code
obtains from new Date(year, month, 0).getDate(). -/
def daysInMonth (year month : ℕ) : ℕ :=
  if month = 2 then (if isLeapYear year then 29 else 28)
  else if month = 4 ∨ month = 6 ∨ month = 9 ∨ month = 11 then 30
  else 31

/-- The monthly-completeness heuristic of showChartModal: the data is
flagged incomplete exactly when the row count is below the number of
calendar days of the as-of month. -/
def isMonthlyIncomplete (rowCount year month : ℕ) : Bool :=
  rowCount < daysInMonth year month

theorem removeFirstChar_of_not_contains (c : Char) :
    ∀ l : List Char, containsChar c l = false → removeFirstChar c l = l := by
  intro l h
  induction l with
  | nil => rfl
  | cons a t ih =>
    simp only [containsChar, Bool.or_eq_false_iff] at h
    simp only [removeFirstChar, h.1, if_neg, Bool.false_eq_true, not_false_iff]
    rw [ih h.2]

/-- C8: the monthly-completeness flag is raised exactly when the row count
is below the number of calendar days of the as-of month; May 2024 has 31
days, so 20 rows are flagged incomplete and 31 rows are not. -/
theorem isMonthlyIncomplete_iff :
    (∀ rowCount year month : ℕ,
      isMonthlyIncomplete rowCount year month = true ↔ rowCount < daysInMonth year month)
    ∧ daysInMonth 2024 5 = 31
    ∧ isMonthlyIncomplete 20 2024 5 = true
    ∧ isMonthlyIncomplete 31 2024 5 = false := by
  refine ⟨fun n y m => ?_, by decide, by decide, by decide⟩
  simp [isMonthlyIncomplete]

/-- C10: the second stock-data handler derives the codes it queries
upstream and its whole response from the stored tracked list and the
upstream outcome alone; two requests with different bodies against the
same state produce identical runs, and the queried codes are exactly the
stored keys. -/
theorem stockData_handler_body_independent :
    ∀ (stored : List (String × ResEntry)) (u : Upstream) (b1 b2 : List String),
      handleStockData stored b1 u = handleStockData stored b2 u
      ∧ (handleStockData stored b1 u).queried = stored.map Prod.fst := by
  intro stored u b1 b2
  refine ⟨rfl, ?_⟩
  cases u <;> simp only [handleStockData] <;> split <;> rfl

/-- C3 counterexample: the date converter adds 1911 to the first part
unconditionally, so an already-Western date is not left unchanged: the
year 2024 becomes 3935. The era-date example of the claim does hold. -/
theorem normalizeDate_western_year_counterexample :
    convertMinguoToGregorian "2024/05/12" = "3935/05/12"
    ∧ "3935/05/12" ≠ "2024/05/12"
    ∧ convertMinguoToGregorian "113/05/12" = "2024/05/12" := by
  refine ⟨by decide, by decide, by decide⟩

/-- C3 amended: for a date of exactly three slash-separated parts with a
numeric first part the converter returns parsed year plus 1911 with
zero-padded month and day — unconditionally, also when the raw year is
already 1911 or more (the below-1911 guard exists only in the yearly
month grouping); input of any other shape is returned unchanged, and
113/05/12 maps to 2024/05/12. -/
theorem normalizeDate_amended :
    (∀ (s y m d : String) (n : ℤ), splitSlash s = [y, m, d] → parseIntJS y = some n →
      convertMinguoToGregorian s = Int.repr (n + 1911) ++ "/" ++ padStart2 m ++ "/" ++ padStart2 d)
    ∧ (∀ s : String, (∀ y m d : String, splitSlash s ≠ [y, m, d]) →
        convertMinguoToGregorian s = s)
    ∧ convertMinguoToGregorian "113/05/12" = "2024/05/12" := by
  refine ⟨?_, ?_, by decide⟩
  · intro s y m d n h1 h2
    unfold convertMinguoToGregorian
    rw [h1]
    dsimp only
    rw [h2]
  · intro s h
    unfold convertMinguoToGregorian
    split
    · rename_i y m d heq
      exact absurd heq (h y m d)
    · rfl

theorem normalizeDate_amended_witness :
    splitSlash "2000/1/5" = ["2000", "1", "5"]
    ∧ parseIntJS "2000" = some 2000
    ∧ convertMinguoToGregorian "2000/1/5" =
        Int.repr (2000 + 1911) ++ "/" ++ padStart2 "1" ++ "/" ++ padStart2 "5" :=
  ⟨by decide, by decide,
    normalizeDate_amended.1 "2000/1/5" "2000" "1" "5" 2000 (by decide) (by decide)⟩

/-- C7: the signed-change parser strips the sign characters, parses the
magnitude, and negates exactly when the string contains a minus; on the
spec examples it yields 1.50 and minus 2.30. -/
theorem parsePriceChange_sign :
    (∀ (m : List Char) (q : ℚ),
      containsChar '+' m = false → containsChar '-' m = false →
      parseFloatChars m = some q →
      parsePriceChange (String.mk ('+' :: m)) = some q
      ∧ parsePriceChange (String.mk ('-' :: m)) = some (-q)
      ∧ parsePriceChange (String.mk m) = some q)
    ∧ parsePriceChange "+1.50" = some (3/2)
    ∧ parsePriceChange "-2.30" = some (-(23/10)) := by
  constructor
  · intro m q hplus hminus hmag
    have hrm : removeFirstChar '-' m = m := removeFirstChar_of_not_contains '-' m hminus
    have hrp : removeFirstChar '+' m = m := removeFirstChar_of_not_contains '+' m hplus
    refine ⟨?_, ?_, ?_⟩
    · simp [parsePriceChange, removeFirstChar, containsChar, hrm, hrp, hminus, hmag]
    · simp [parsePriceChange, removeFirstChar, containsChar, hrm, hrp, hminus, hplus, hmag]
    · simp [parsePriceChange, hrm, hrp, hminus, hmag]
  · constructor
    · simp +decide [parsePriceChange, removeFirstChar, containsChar, parseFloatChars,
        parseUnsigned, leadingDigits, natOfDigits, isDigitChar, isJsWhitespace, List.dropWhile]
      norm_num
    · simp +decide [parsePriceChange, removeFirstChar, containsChar, parseFloatChars,
        parseUnsigned, leadingDigits, natOfDigits, isDigitChar, isJsWhitespace, List.dropWhile]
      norm_num

theorem parsePriceChange_sign_witness :
    containsChar '+' ['2', '.', '3', '0'] = false
    ∧ containsChar '-' ['2', '.', '3', '0'] = false
    ∧ parseFloatChars ['2', '.', '3', '0'] = some (23/10)
    ∧ parsePriceChange (String.mk ('-' :: ['2', '.', '3', '0'])) = some (-(23/10)) := by
  have h : parseFloatChars ['2', '.', '3', '0'] = some (23/10) := by
    simp +decide [parseFloatChars, parseUnsigned, leadingDigits, natOfDigits,
      isDigitChar, isJsWhitespace, List.dropWhile]
    norm_num
  exact ⟨by decide, by decide, h,
    (parsePriceChange_sign.1 ['2', '.', '3', '0'] (23/10) (by decide) (by decide) h).2.1⟩

/-- C2 counterexample: with a numeric instant price of 5 and a yesterday
close string that parses to the number zero, the handler still derives the
price change 5.00 while the claim demands the N/A sentinel for both
derived fields when yesterday close is zero. -/
theorem quote_derivation_zero_close_counterexample :
    parseFloat "5" = some 5
    ∧ parseFloat "0" = some 0
    ∧ (processQuote ⟨"2330", "X", "5", "0", "", ""⟩).PriceChange = "5.00"
    ∧ (processQuote ⟨"2330", "X", "5", "0", "", ""⟩).ChangePercentage = "N/A"
    ∧ ("5.00" : String) ≠ "N/A" := by
  have h5 : parseFloat "5" = some 5 := by
    simp +decide [parseFloat, parseFloatChars, parseUnsigned, leadingDigits, natOfDigits,
      isDigitChar, isJsWhitespace, List.dropWhile]
  have h0 : parseFloat "0" = some 0 := by
    simp +decide [parseFloat, parseFloatChars, parseUnsigned, leadingDigits, natOfDigits,
      isDigitChar, isJsWhitespace, List.dropWhile]
  refine ⟨h5, h0, ?_, ?_, by decide⟩
  · show (processQuote ⟨"2330", "X", "5", "0", "", ""⟩).PriceChange = "5.00"
    simp only [processQuote, h5, h0]
    norm_num [toFixed2, round_eq, Int.floor_eq_iff, pad2digits]
    decide
  · simp only [processQuote, h5, h0]
    norm_num

/-- C2 amended: when both the instant price and yesterday close parse, the
price change is the rounded signed difference regardless of whether
yesterday close is zero; the percentage is the rounded scaled ratio with a
percent suffix for a nonzero yesterday close and N/A when it is zero; when
either field fails to parse, both derived fields are N/A. -/
theorem quote_derivation_amended :
    (∀ (info : MsgInfo) (lp yc : ℚ),
      parseFloat info.z = some lp → parseFloat info.y = some yc →
      (processQuote info).PriceChange = toFixed2 (lp - yc)
      ∧ (yc ≠ 0 → (processQuote info).ChangePercentage = toFixed2 ((lp - yc) / yc * 100) ++ "%")
      ∧ (yc = 0 → (processQuote info).ChangePercentage = "N/A"))
    ∧ (∀ info : MsgInfo, parseFloat info.z = none ∨ parseFloat info.y = none →
      (processQuote info).PriceChange = "N/A"
      ∧ (processQuote info).ChangePercentage = "N/A") := by
  constructor
  · intro info lp yc hz hy
    refine ⟨?_, fun h => ?_, fun h => ?_⟩
    · simp [processQuote, hz, hy]
    · simp [processQuote, hz, hy, h]
    · simp [processQuote, hz, hy, h]
  · intro info h
    rcases h with h | h
    · cases hy : parseFloat info.y <;> simp [processQuote, h, hy]
    · cases hz : parseFloat info.z <;> simp [processQuote, h, hz]

theorem quote_derivation_amended_witness :
    parseFloat "2" = some 2
    ∧ parseFloat "4" = some 4
    ∧ (processQuote ⟨"c", "n", "2", "4", "", ""⟩).PriceChange = toFixed2 (2 - 4) := by
  have hz : parseFloat "2" = some 2 := by
    simp +decide [parseFloat, parseFloatChars, parseUnsigned, leadingDigits, natOfDigits,
      isDigitChar, isJsWhitespace, List.dropWhile]
  have hy : parseFloat "4" = some 4 := by
    simp +decide [parseFloat, parseFloatChars, parseUnsigned, leadingDigits, natOfDigits,
      isDigitChar, isJsWhitespace, List.dropWhile]
  exact ⟨hz, hy, (quote_derivation_amended.1 ⟨"c", "n", "2", "4", "", ""⟩ 2 4 hz hy).1⟩

theorem carryField_eq_spec (w : Bool) (fv : String) (pv : Option String) :
    carryField w fv pv = carryFieldSpec w fv pv := by
  cases pv with
  | none => rfl
  | some p =>
    by_cases hw : w = true
    · by_cases hf : fv = "N/A"
      · by_cases hp : p = "N/A"
        · subst hp
          subst hf
          simp [carryField, carryFieldSpec, hw]
        · simp [carryField, carryFieldSpec, hw, hf, hp]
      · simp [carryField, carryFieldSpec, hw, hf]
    · simp [carryField, carryFieldSpec, hw]

theorem lookup_reconcile (w : Bool) (prev : List (String × StockData)) (tracked : List String) :
    ∀ (fetched : List (String × StockItem)) (code : String) (item : StockItem),
      tracked.contains code = true → fetched.lookup code = some item →
      (reconcile w prev fetched tracked).lookup code =
        some (reconcileItem w item (prev.lookup code)) := by
  intro fetched
  induction fetched with
  | nil => intro code item _ h2; simp [List.lookup] at h2
  | cons q t ih =>
    intro code item h1 h2
    obtain ⟨c, it⟩ := q
    by_cases hc : code = c
    · subst hc
      rw [List.lookup_cons_self] at h2
      injection h2 with h2
      subst h2
      have h1m : code ∈ tracked := by simpa using h1
      simp [reconcile, List.filterMap_cons, h1m, List.lookup_cons_self]
    · have hbeq : (code == c) = false := beq_eq_false_iff_ne.mpr hc
      rw [List.lookup_cons, hbeq] at h2
      have := ih code item h1 h2
      simp only [reconcile, List.filterMap_cons] at this ⊢
      by_cases ht : tracked.contains c
      · simp only [ht, if_pos]
        rw [List.lookup_cons, hbeq]
        exact this
      · simp only [ht, if_neg, Bool.false_eq_true, not_false_iff]
        exact this

/-- C1: for every trading-window flag, previous snapshot, fetch result and
tracked code present in the fetch, each of the three price fields of the
reconciled entry follows the carry-forward rule exactly as the claim words
it: the previous value when in the trading window, the fresh value is the
N/A sentinel and the previous snapshot holds a defined non-N/A value; the
freshly fetched value (even N/A) in every other case, in particular always
outside the trading window. -/
theorem reconcile_carry_forward_policy
    (w : Bool) (prev : List (String × StockData)) (fetched : List (String × StockItem))
    (tracked : List String) (code : String) (item : StockItem)
    (hmem : tracked.contains code = true) (hf : fetched.lookup code = some item) :
    ∃ d : StockData, (reconcile w prev fetched tracked).lookup code = some d
      ∧ d.InstantPrice =
          some (carryFieldSpec w item.InstantPrice ((prev.lookup code).bind fun s => s.InstantPrice))
      ∧ d.PriceChange =
          some (carryFieldSpec w item.PriceChange ((prev.lookup code).bind fun s => s.PriceChange))
      ∧ d.ChangePercentage =
          some (carryFieldSpec w item.ChangePercentage
            ((prev.lookup code).bind fun s => s.ChangePercentage)) := by
  refine ⟨reconcileItem w item (prev.lookup code),
    lookup_reconcile w prev tracked fetched code item hmem hf, ?_, ?_, ?_⟩ <;>
    simp [reconcileItem, carryField_eq_spec]

/-- Concrete previous snapshot used to exercise the reconciliation
theorems: one cached entry with all price fields known. -/
def prevFix : List (String × StockData) :=
  [("2330", ⟨"2330", "T", none, none, some "600", some "600", some "10.00",
    some "1.69%", some "590"⟩)]

/-- Concrete fetch result used to exercise the reconciliation theorems:
the same code with every price field reading N/A. -/
def fetchedFix : List (String × StockItem) :=
  [("2330", ⟨"2330", "T", none, none, "N/A", "N/A", "N/A", "590"⟩)]

theorem reconcile_carry_forward_policy_witness :
    (["2330"] : List String).contains "2330" = true
    ∧ fetchedFix.lookup "2330" = some ⟨"2330", "T", none, none, "N/A", "N/A", "N/A", "590"⟩
    ∧ ∃ d : StockData,
        (reconcile true prevFix fetchedFix ["2330"]).lookup "2330" = some d
        ∧ d.InstantPrice =
            some (carryFieldSpec true "N/A" ((prevFix.lookup "2330").bind fun s => s.InstantPrice))
        ∧ d.PriceChange =
            some (carryFieldSpec true "N/A" ((prevFix.lookup "2330").bind fun s => s.PriceChange))
        ∧ d.ChangePercentage =
            some (carryFieldSpec true "N/A"
              ((prevFix.lookup "2330").bind fun s => s.ChangePercentage)) := by
  refine ⟨by decide, by decide, ?_⟩
  exact reconcile_carry_forward_policy true prevFix fetchedFix ["2330"] "2330"
    ⟨"2330", "T", none, none, "N/A", "N/A", "N/A", "590"⟩ (by decide) (by decide)

/-- C6: every entry of the reconciliation result takes its code, name,
time, volume and yesterday close verbatim from the fetched item it was
built from, for every trading-window flag and every previous snapshot:
these fields are never carried forward, only the three price fields go
through the carry rule. -/
theorem reconcile_frame_fields
    (w : Bool) (prev : List (String × StockData)) (fetched : List (String × StockItem))
    (tracked : List String) :
    ∀ p ∈ reconcile w prev fetched tracked,
      ∃ item : StockItem, (p.1, item) ∈ fetched
        ∧ p.2.Code = item.Code
        ∧ p.2.Name = item.Name
        ∧ p.2.t = item.t
        ∧ p.2.v = item.v
        ∧ p.2.YesterdayClose = some item.YesterdayClose := by
  intro p hp
  simp only [reconcile, List.mem_filterMap] at hp
  obtain ⟨q, hq, hif⟩ := hp
  by_cases h : tracked.contains q.1 = true
  · rw [if_pos h] at hif
    injection hif with hif
    refine ⟨q.2, ?_, ?_⟩
    · rw [← hif]
      exact hq
    · rw [← hif]
      exact ⟨rfl, rfl, rfl, rfl, rfl⟩
  · rw [if_neg h] at hif
    exact absurd hif (by simp)

/-- The entry the reconciliation produces from prevFix and fetchedFix in
the trading window: prices carried forward, yesterday close fresh. -/
def reconciledFix : StockData :=
  ⟨"2330", "T", none, none, some "600", some "600", some "10.00", some "1.69%", some "590"⟩

theorem reconcile_frame_fields_witness :
    (("2330", reconciledFix) ∈ reconcile true prevFix fetchedFix ["2330"])
    ∧ ∃ item : StockItem,
        ("2330", item) ∈ fetchedFix
        ∧ reconciledFix.Code = item.Code
        ∧ reconciledFix.Name = item.Name
        ∧ reconciledFix.t = item.t
        ∧ reconciledFix.v = item.v
        ∧ reconciledFix.YesterdayClose = some item.YesterdayClose := by
  constructor
  · decide
  · exact reconcile_frame_fields true prevFix fetchedFix ["2330"]
      ("2330", reconciledFix) (by decide)

theorem carryField_of_ne (w : Bool) (fv : String) (pv : Option String) (h : fv ≠ "N/A") :
    carryField w fv pv = fv := by
  cases pv with
  | none => rfl
  | some p =>
    have : (fv == "N/A") = false := beq_eq_false_iff_ne.mpr h
    simp [carryField, this]

theorem reconcileItem_of_no_na (w : Bool) (item : StockItem)
    (h1 : item.InstantPrice ≠ "N/A") (h2 : item.PriceChange ≠ "N/A")
    (h3 : item.ChangePercentage ≠ "N/A") (cur cur' : Option StockData) :
    reconcileItem w item cur = reconcileItem w item cur' := by
  simp [reconcileItem, carryField_of_ne, h1, h2, h3]

theorem reconcile_prev_irrelevant (w : Bool) (tracked : List String) :
    ∀ fetched : List (String × StockItem),
      (∀ q ∈ fetched, q.2.InstantPrice ≠ "N/A" ∧ q.2.PriceChange ≠ "N/A"
        ∧ q.2.ChangePercentage ≠ "N/A") →
      ∀ prev1 prev2 : List (String × StockData),
        reconcile w prev1 fetched tracked = reconcile w prev2 fetched tracked := by
  intro fetched
  induction fetched with
  | nil => intro _ _ _; rfl
  | cons q t ih =>
    intro h prev1 prev2
    have hq := h q (List.mem_cons_self q t)
    have ht := fun r hr => h r (List.mem_cons_of_mem q hr)
    simp only [reconcile, List.filterMap_cons]
    by_cases hc : tracked.contains q.1 = true
    · rw [if_pos hc, if_pos hc]
      rw [reconcileItem_of_no_na w q.2 hq.1 hq.2.1 hq.2.2 (prev1.lookup q.1) (prev2.lookup q.1)]
      have := ih ht prev1 prev2
      simp only [reconcile] at this
      rw [this]
    · rw [if_neg hc, if_neg hc]
      have := ih ht prev1 prev2
      simp only [reconcile] at this
      rw [this]

/-- C9: when no price field of any fetched quote is the N/A sentinel the
reconciliation never consults the previous snapshot, so feeding its own
output back as the previous snapshot and reconciling the same fetch again
reproduces the same result. -/
theorem reconcile_idempotent_no_na
    (w : Bool) (prev : List (String × StockData)) (fetched : List (String × StockItem))
    (tracked : List String)
    (h : ∀ q ∈ fetched, q.2.InstantPrice ≠ "N/A" ∧ q.2.PriceChange ≠ "N/A"
      ∧ q.2.ChangePercentage ≠ "N/A") :
    reconcile w (reconcile w prev fetched tracked) fetched tracked =
      reconcile w prev fetched tracked :=
  reconcile_prev_irrelevant w tracked fetched h (reconcile w prev fetched tracked) prev

/-- Concrete fetch result with fully known fields, used to exercise the
idempotence theorem. -/
def fetchedFull : List (String × StockItem) :=
  [("2330", ⟨"2330", "T", some "13:30", some "1000", "600.00", "10.00", "1.69%", "590.00"⟩)]

theorem reconcile_idempotent_no_na_witness :
    (∀ q ∈ fetchedFull, q.2.InstantPrice ≠ "N/A" ∧ q.2.PriceChange ≠ "N/A"
      ∧ q.2.ChangePercentage ≠ "N/A")
    ∧ reconcile true (reconcile true prevFix fetchedFull ["2330"]) fetchedFull ["2330"] =
        reconcile true prevFix fetchedFull ["2330"] :=
  ⟨by decide, reconcile_idempotent_no_na true prevFix fetchedFull ["2330"] (by decide)⟩

/-- C4 counterexample: the monthly branch neither strips thousands
separators nor re-pads the label. On a row dated 113/5/2 with closing
price 1,234.50 the emitted point has label 5/2 (raw date after the first
slash) and closing price 1 (parseFloat stops at the comma), while the
claim predicts the normalized-date label 05/02 and the comma-stripped
value 1234.5. -/
theorem buildMonthly_label_close_counterexample :
    buildMonthly [⟨"113/5/2", "1,234.50", "+1.50"⟩] = [⟨"5/2", some (-300), some 1⟩]
    ∧ parseFloat (String.mk (removeAllChar ',' ("1,234.50").data)) = some (2469/2)
    ∧ convertMinguoToGregorian "113/5/2" = "2024/05/02"
    ∧ (some (1 : ℚ) ≠ some (2469/2 : ℚ))
    ∧ ("5/2" : String) ≠ "05/02" := by
  have hclose : parseFloat "1,234.50" = some 1 := by decide
  have hchange : parsePriceChange "+1.50" = some (3/2) := by
    simp +decide [parsePriceChange, removeFirstChar, containsChar, parseFloatChars,
      parseUnsigned, leadingDigits, natOfDigits, isDigitChar, isJsWhitespace, List.dropWhile]
    norm_num
  refine ⟨?_, ?_, by decide, by norm_num, by decide⟩
  · have hsort : sortRows [⟨"113/5/2", "1,234.50", "+1.50"⟩] =
        [⟨"113/5/2", "1,234.50", "+1.50"⟩] := by decide
    have hsub : jsSub (some 1) (some (3/2)) = some (-(1/2)) := by
      simp [jsSub]
      norm_num
    have hpct : jsPercentage (some (3/2)) (some (-(1/2))) = some (-300) := by
      simp [jsPercentage]
      norm_num
    have hround : round2 (-300) = -300 := by
      norm_num [round2, round_eq, Int.floor_eq_iff]
    have hlabel : afterFirstSlash "113/5/2" = "5/2" := by decide
    simp only [buildMonthly, hsort, List.map_cons, List.map_nil, monthlyPoint,
      hclose, hchange, hsub, hpct, hround, hlabel, Option.map_some']
  · simp +decide [parseFloat, parseFloatChars, parseUnsigned, leadingDigits, natOfDigits,
      isDigitChar, isJsWhitespace, List.dropWhile, removeAllChar]
    norm_num

/-- C4 amended: the monthly construction sorts the rows ascending by
normalized date and emits exactly one point per row, the pointwise image
of the sorted rows; each point's label is the raw date after its first
slash (month and day are not re-padded) and its closing price is parseFloat
of the raw closing string with no comma stripping (commas are stripped only
in the yearly branch). -/
theorem buildMonthly_amended :
    ∀ rows : List DayRow,
      (buildMonthly rows).length = rows.length
      ∧ List.Sorted rowLe (sortRows rows)
      ∧ buildMonthly rows = (sortRows rows).map monthlyPoint
      ∧ (buildMonthly rows).Perm (rows.map monthlyPoint)
      ∧ ∀ r : DayRow, (monthlyPoint r).label = afterFirstSlash r.date
          ∧ (monthlyPoint r).close = parseFloat r.closing := by
  intro rows
  refine ⟨?_, List.sorted_insertionSort rowLe rows, rfl, ?_, fun r => ⟨rfl, rfl⟩⟩
  · simp only [buildMonthly, List.length_map, sortRows,
      (List.perm_insertionSort rowLe rows).length_eq]
  · exact (List.perm_insertionSort rowLe rows).map monthlyPoint

theorem lookup_upsert (k : String) (r : DayRow) :
    ∀ (l : List (String × DayRow)) (k' : String),
      (upsert l k r).lookup k' = if k' = k then some r else l.lookup k' := by
  intro l
  induction l with
  | nil =>
    intro k'
    by_cases h : k' = k
    · subst h
      simp [upsert]
    · simp [upsert, beq_eq_false_iff_ne.mpr h, h]
  | cons p t ih =>
    intro k'
    obtain ⟨pk, pv⟩ := p
    by_cases hp : pk = k
    · subst hp
      simp only [upsert, if_pos]
      by_cases h : k' = pk
      · subst h
        simp [List.lookup_cons_self]
      · simp [List.lookup_cons, beq_eq_false_iff_ne.mpr h, h]
    · simp only [upsert]
      rw [if_neg hp]
      by_cases h : k' = pk
      · subst h
        have hk : k' ≠ k := hp
        simp [List.lookup_cons_self, hk]
      · simp only [List.lookup_cons, beq_eq_false_iff_ne.mpr h]
        exact ih k'

theorem keys_upsert_mem (k : String) (r : DayRow) :
    ∀ (l : List (String × DayRow)) (k' : String),
      k' ∈ (upsert l k r).map Prod.fst ↔ k' ∈ l.map Prod.fst ∨ k' = k := by
  intro l
  induction l with
  | nil =>
    intro k'
    simp [upsert]
  | cons p t ih =>
    intro k'
    obtain ⟨pk, pv⟩ := p
    by_cases hp : pk = k
    · subst hp
      simp only [upsert, if_pos]
      simp only [List.map_cons, List.mem_cons]
      constructor
      · rintro (h | h)
        · exact Or.inr h
        · exact Or.inl (Or.inr h)
      · rintro ((h | h) | h)
        · exact Or.inl h
        · exact Or.inr h
        · exact Or.inl h
    · simp only [upsert]
      rw [if_neg hp]
      simp only [List.map_cons, List.mem_cons, ih k']
      tauto

theorem keys_upsert_nodup (k : String) (r : DayRow) :
    ∀ l : List (String × DayRow),
      (l.map Prod.fst).Nodup → ((upsert l k r).map Prod.fst).Nodup := by
  intro l
  induction l with
  | nil =>
    intro _
    simp [upsert]
  | cons p t ih =>
    intro h
    obtain ⟨pk, pv⟩ := p
    simp only [List.map_cons, List.nodup_cons] at h
    by_cases hp : pk = k
    · subst hp
      simp only [upsert, if_pos]
      simp only [List.map_cons, List.nodup_cons]
      exact h
    · simp only [upsert]
      rw [if_neg hp]
      simp only [List.map_cons, List.nodup_cons]
      refine ⟨?_, ih h.2⟩
      intro hc
      rcases (keys_upsert_mem k r t pk).mp hc with hm | he
      · exact h.1 hm
      · exact hp he

theorem lookup_monthGroups_aux (k : String) :
    ∀ (rows : List DayRow) (acc : List (String × DayRow)),
      ((rows.foldl groupStep acc).lookup k) =
        rows.foldl (fun a r => if monthKeyOf r = some k then some r else a) (acc.lookup k) := by
  intro rows
  induction rows with
  | nil => intro acc; rfl
  | cons r t ih =>
    intro acc
    simp only [List.foldl_cons]
    rw [ih]
    have hstep : (groupStep acc r).lookup k =
        if monthKeyOf r = some k then some r else acc.lookup k := by
      unfold groupStep
      cases hm : monthKeyOf r with
      | none => simp [hm]
      | some k' =>
        rw [lookup_upsert]
        by_cases h : k = k'
        · subst h
          simp
        · have hne : monthKeyOf r ≠ some k := by
            rw [hm]
            intro hc
            injection hc with hc
            exact h hc.symm
          have h2 : k' ≠ k := fun hc => h hc.symm
          simp [h2, hne]
          intro hc
          exact absurd hc h
    rw [hstep]

theorem lookup_monthGroups (k : String) (rows : List DayRow) :
    (monthGroups rows).lookup k = lastRowOfMonth k rows := by
  unfold monthGroups lastRowOfMonth
  rw [lookup_monthGroups_aux]
  rfl

theorem keys_monthGroups_mem_aux (k : String) :
    ∀ (rows : List DayRow) (acc : List (String × DayRow)),
      (k ∈ (rows.foldl groupStep acc).map Prod.fst ↔
        k ∈ acc.map Prod.fst ∨ ∃ r ∈ rows, monthKeyOf r = some k) := by
  intro rows
  induction rows with
  | nil =>
    intro acc
    simp
  | cons r t ih =>
    intro acc
    simp only [List.foldl_cons, ih (groupStep acc r), List.mem_cons]
    have hstep : k ∈ (groupStep acc r).map Prod.fst ↔
        k ∈ acc.map Prod.fst ∨ monthKeyOf r = some k := by
      unfold groupStep
      cases hm : monthKeyOf r with
      | none =>
        simp [hm]
      | some k' =>
        rw [keys_upsert_mem]
        constructor
        · rintro (h | h)
          · exact Or.inl h
          · exact Or.inr (by rw [h])
        · rintro (h | h)
          · exact Or.inl h
          · injection h with h
            exact Or.inr h.symm
    rw [hstep]
    constructor
    · rintro ((h | h) | ⟨q, hq, hqk⟩)
      · exact Or.inl h
      · exact Or.inr ⟨r, Or.inl rfl, h⟩
      · exact Or.inr ⟨q, Or.inr hq, hqk⟩
    · rintro (h | ⟨q, (hq | hq), hqk⟩)
      · exact Or.inl (Or.inl h)
      · subst hq
        exact Or.inl (Or.inr hqk)
      · exact Or.inr ⟨q, hq, hqk⟩

theorem keys_monthGroups_mem (k : String) (rows : List DayRow) :
    k ∈ (monthGroups rows).map Prod.fst ↔ ∃ r ∈ rows, monthKeyOf r = some k := by
  unfold monthGroups
  rw [keys_monthGroups_mem_aux]
  simp

theorem keys_monthGroups_nodup_aux :
    ∀ (rows : List DayRow) (acc : List (String × DayRow)),
      (acc.map Prod.fst).Nodup → ((rows.foldl groupStep acc).map Prod.fst).Nodup := by
  intro rows
  induction rows with
  | nil =>
    intro acc h
    exact h
  | cons r t ih =>
    intro acc h
    simp only [List.foldl_cons]
    refine ih (groupStep acc r) ?_
    unfold groupStep
    cases monthKeyOf r with
    | none => exact h
    | some k' => exact keys_upsert_nodup k' r acc h

theorem keys_monthGroups_nodup (rows : List DayRow) :
    ((monthGroups rows).map Prod.fst).Nodup :=
  keys_monthGroups_nodup_aux rows [] (by simp)

theorem lookup_of_mem_of_nodup :
    ∀ (l : List (String × DayRow)), (l.map Prod.fst).Nodup →
      ∀ (k : String) (r : DayRow), (k, r) ∈ l → l.lookup k = some r := by
  intro l
  induction l with
  | nil =>
    intro _ k r h
    simp at h
  | cons p t ih =>
    intro h k r hm
    obtain ⟨pk, pv⟩ := p
    simp only [List.map_cons, List.nodup_cons] at h
    rcases List.mem_cons.mp hm with he | ht
    · injection he with h1 h2
      subst h1
      subst h2
      exact List.lookup_cons_self
    · have hk : k ≠ pk := by
        intro hc
        subst hc
        exact h.1 (List.mem_map.mpr ⟨(k, r), ht, rfl⟩)
      rw [List.lookup_cons, beq_eq_false_iff_ne.mpr hk]
      exact ih h.2 k r ht

/-- C5: over rows sorted ascending by date, the yearly construction emits
exactly one entry per distinct month key, in ascending month-key order
(sorted and duplicate-free labels covering exactly the month keys of the
input), and each entry is computed from the last row of its month in the
batch — under the ascending hypothesis, the latest trading day of that
month. -/
theorem buildYearly_one_entry_per_month
    (rows : List DayRow) (_hs : List.Sorted rowLe rows) :
    ((buildYearly rows).map ChartPoint.label).Sorted strLe
    ∧ ((buildYearly rows).map ChartPoint.label).Nodup
    ∧ (∀ k : String, k ∈ (buildYearly rows).map ChartPoint.label ↔
        ∃ r ∈ rows, monthKeyOf r = some k)
    ∧ (∀ p ∈ buildYearly rows, ∃ r : DayRow,
        lastRowOfMonth p.label rows = some r ∧ p = yearlyPoint p.label r) := by
  have hmap : (buildYearly rows).map ChartPoint.label =
      (List.insertionSort keyLe (monthGroups rows)).map Prod.fst := by
    simp only [buildYearly, List.map_map]
    rfl
  have hperm : (List.insertionSort keyLe (monthGroups rows)).Perm (monthGroups rows) :=
    List.perm_insertionSort keyLe (monthGroups rows)
  refine ⟨?_, ?_, ?_, ?_⟩
  · rw [hmap]
    exact List.Pairwise.map Prod.fst (fun a b h => h)
      (List.sorted_insertionSort keyLe (monthGroups rows))
  · rw [hmap]
    exact ((hperm.map Prod.fst).nodup_iff).mpr (keys_monthGroups_nodup rows)
  · intro k
    rw [hmap, (hperm.map Prod.fst).mem_iff]
    exact keys_monthGroups_mem k rows
  · intro p hp
    simp only [buildYearly, List.mem_map] at hp
    obtain ⟨q, hq, hpe⟩ := hp
    have hqm : q ∈ monthGroups rows := hperm.subset hq
    have hlk : (monthGroups rows).lookup q.1 = some q.2 :=
      lookup_of_mem_of_nodup (monthGroups rows) (keys_monthGroups_nodup rows) q.1 q.2 hqm
    subst hpe
    exact ⟨q.2, by rw [← lookup_monthGroups]; exact hlk, rfl⟩

/-- Three months of ascending daily rows, two days in the first month, one
in each of the others, exercising the yearly grouping. -/
def yearlyRowsFix : List DayRow :=
  [⟨"113/01/10", "100", "+1.00"⟩, ⟨"113/01/31", "110", "+2.00"⟩,
   ⟨"113/02/15", "120", "-1.00"⟩, ⟨"113/03/05", "130", "+0.50"⟩]

theorem buildYearly_one_entry_per_month_witness :
    List.Sorted rowLe yearlyRowsFix
    ∧ ((buildYearly yearlyRowsFix).map ChartPoint.label).Sorted strLe
    ∧ ((buildYearly yearlyRowsFix).map ChartPoint.label).Nodup
    ∧ (∀ k : String, k ∈ (buildYearly yearlyRowsFix).map ChartPoint.label ↔
        ∃ r ∈ yearlyRowsFix, monthKeyOf r = some k)
    ∧ (∀ p ∈ buildYearly yearlyRowsFix, ∃ r : DayRow,
        lastRowOfMonth p.label yearlyRowsFix = some r ∧ p = yearlyPoint p.label r)
    ∧ (buildYearly yearlyRowsFix).map ChartPoint.label = ["2024/01", "2024/02", "2024/03"]
    ∧ (buildYearly yearlyRowsFix).length = 3
    ∧ lastRowOfMonth "2024/01" yearlyRowsFix = some ⟨"113/01/31", "110", "+2.00"⟩ := by
  have h := buildYearly_one_entry_per_month yearlyRowsFix (by decide)
  exact ⟨by decide, h.1, h.2.1, h.2.2.1, h.2.2.2, by decide, by decide, by decide⟩

end StockMonitor
